import Mathlib

/-!
# Verification of `webscrape.py` (student-data HTML scraper)

Shallow embedding of `src/webscrape.py` (function `scrape_student_data`).
The HTML document is modelled after parsing: a tree of elements
(lowercased tag name, attribute list, children) and text nodes, as
produced by a lenient HTML parser.  All string-level operations of the
Python code (`str.strip`, `str.split`, the `^msg\d+$` regular
expression, CSV quoting) are translated to executable functions over
`List Char`.  `\d` is modelled as an ASCII decimal digit and whitespace
as ASCII whitespace.
-/

set_option autoImplicit false

/-- A node of the parsed document tree: an element (tag name, attributes
as an association list in source order, children in document order) or a
text node. -/
inductive Node where
  | elem (tag : String) (attrs : List (String × String)) (children : List Node) : Node
  | text (s : String) : Node

/-- First value bound to `key` in an attribute list (`None` if absent). -/
def lookupAttr (key : String) : List (String × String) → Option String
  | [] => none
  | (k, v) :: rest => if k == key then some v else lookupAttr key rest

mutual

/-- All nodes of the subtree rooted at `n`, itself included, in
pre-order (document order). -/
def Node.subnodes : Node → List Node
  | .text s => [.text s]
  | .elem tag attrs children => .elem tag attrs children :: subnodesList children

/-- All nodes of a forest, in document order. -/
def subnodesList : List Node → List Node
  | [] => []
  | n :: ns => n.subnodes ++ subnodesList ns

end

mutual

/-- Concatenated text of a subtree: the translation of BeautifulSoup's
`.text` (the concatenation of all descendant strings, in order). -/
def Node.textChars : Node → List Char
  | .text s => s.data
  | .elem _ _ children => textCharsList children

/-- Concatenated text of a forest. -/
def textCharsList : List Node → List Char
  | [] => []
  | n :: ns => n.textChars ++ textCharsList ns

end

/-- Whether a node is an element (tags are matched only against elements). -/
def Node.isElem : Node → Bool
  | .elem _ _ _ => true
  | .text _ => false

/-- Children of a node (`[]` for a text node). -/
def Node.childList : Node → List Node
  | .elem _ _ children => children
  | .text _ => []

/-- Tag name of an element node. -/
def Node.tagName : Node → Option String
  | .elem tag _ _ => some tag
  | .text _ => none

/-- `tagIs t n`: `n` is an element named `t`. -/
def tagIs (t : String) (n : Node) : Bool := n.tagName == some t

/-- All element nodes strictly below `n`, in document order:
the search space of `n.find_all(...)` / `n.find(...)`. -/
def elemsUnder (n : Node) : List Node := (subnodesList n.childList).filter Node.isElem

/-- All element nodes of a document (a forest of top-level nodes), roots
included, in document order: the search space of `soup.find_all(...)`. -/
def elemsInDoc (doc : List Node) : List Node := (subnodesList doc).filter Node.isElem

/-- `row.find_all('td')`: every descendant `td` element, in document order. -/
def rowCells (row : Node) : List Node := (elemsUnder row).filter (tagIs "td")

/-- ASCII-whitespace trim of a character list: the translation of
Python's `str.strip()`. -/
def trimChars (cs : List Char) : List Char :=
  ((cs.dropWhile Char.isWhitespace).reverse.dropWhile Char.isWhitespace).reverse

/-- `cell.find('font')`: the first descendant `font` element, if any. -/
def findFont (cell : Node) : Option Node :=
  ((elemsUnder cell).filter (tagIs "font")).head?

/-- Translation of `cell.find('font').text.strip() if cell.find('font') else ''`:
the trimmed concatenated text of the first nested `font` element, or `""`
when the cell has none. -/
def fontText (cell : Node) : String :=
  match findFont cell with
  | some f => String.mk (trimChars f.textChars)
  | none => ""

/-- `'msg'` followed by one or more (ASCII) decimal digits, nothing else:
a full match of `msg\d+`. -/
def msgDigits (cs : List Char) : Bool :=
  match cs with
  | c1 :: c2 :: c3 :: rest =>
      c1 == 'm' && c2 == 's' && c3 == 'g' && !rest.isEmpty && rest.all Char.isDigit
  | _ => false

/-- Translation of BeautifulSoup's id filter `re.compile(r'^msg\d+$')`,
applied with `search`: `^` anchors at the start of the string and `$`
matches at the end of the string *or just before a final newline*
(Python `re` semantics without `re.MULTILINE`).  So the filter accepts
exactly `msg` + digits, optionally followed by one trailing newline. -/
def msgIdSearch (s : String) : Bool :=
  msgDigits s.data || ((s.data.getLast? == some '\n') && msgDigits s.data.dropLast)

/-- Split on runs of whitespace, dropping empty tokens: the translation
of Python's `str.split()` used by the html.parser tree builder to turn
the `class` attribute into a list of class names. -/
def splitWsAux : List Char → List Char → List (List Char)
  | [], cur => if cur.isEmpty then [] else [cur.reverse]
  | c :: cs, cur =>
      if c.isWhitespace then
        if cur.isEmpty then splitWsAux cs [] else cur.reverse :: splitWsAux cs []
      else splitWsAux cs (c :: cur)

/-- The whitespace-separated class names of a `class` attribute value. -/
def classTokens (v : String) : List (List Char) := splitWsAux v.data []

/-- Translation of the filter `class_='nav'`: BeautifulSoup treats
`class` as a multi-valued attribute, so the filter matches when `nav`
is *any one* of the whitespace-separated class names. -/
def classMatchesNav (attrs : List (String × String)) : Bool :=
  match lookupAttr "class" attrs with
  | some v => (classTokens v).contains "nav".data
  | none => false

/-- Translation of the row filter of
`soup.find_all('tr', class_='nav', id=re.compile(r'^msg\d+$'))`. -/
def isStudentRow : Node → Bool
  | .elem tag attrs _ =>
      tag == "tr" && classMatchesNav attrs &&
        (match lookupAttr "id" attrs with
         | some v => msgIdSearch v
         | none => false)
  | .text _ => false

/-- The Row Selector: all matching `tr` elements of the document, in
document order. -/
def studentRows (doc : List Node) : List Node :=
  (elemsInDoc doc).filter isStudentRow

/-- A Student Record: the four extracted string fields. -/
structure Student where
  studentId : String
  studentName : String
  course : String
  year : String
deriving DecidableEq

/-- Field value at cell index `i` of a row: the `fontText` of
`cells[i]`.  (Used only at indices 1–4 under the length guard; the
default node is never reached there.) -/
def fieldValue (row : Node) (i : Nat) : String :=
  fontText ((rowCells row).getD i (.text ""))

/-- Outcome of the per-row `try` block:
`ok s` — record `s` appended to `students`;
`filtered` — the `if student_id:` test failed, nothing appended;
`error` — an exception was caught, `"Error processing row"` printed. -/
inductive RowResult where
  | ok (s : Student) : RowResult
  | filtered : RowResult
  | error : RowResult
deriving DecidableEq

/-- Translation of the body of the per-row loop.  Python raises
`IndexError` on `cells[i]` exactly when `i ≥ len(cells)`; the largest
index used is 4, and `find`, `.text` and `.strip()` never raise, so the
`except` branch is taken exactly when the row has fewer than 5 `td`
descendants (the exception fires at the first out-of-range index, before
anything is appended). -/
def processRow (row : Node) : RowResult :=
  let cells := rowCells row
  if cells.length < 5 then .error
  else
    let studentId := fieldValue row 1
    if studentId ≠ "" then
      .ok ⟨studentId, fieldValue row 2, fieldValue row 3, fieldValue row 4⟩
    else .filtered

/-- The record produced by a successful iteration, `none` otherwise. -/
def okResult : RowResult → Option Student
  | .ok s => some s
  | .filtered => none
  | .error => none

/-- The `students` list produced by running the loop over `rows`. -/
def rowsPipeline (rows : List Node) : List Student :=
  rows.filterMap (fun r => okResult (processRow r))

/-- The final collection of Student Records for a document. -/
def scrapeStudents (doc : List Node) : List Student :=
  rowsPipeline (studentRows doc)

/-- The `"Error processing row"` diagnostics printed while running the
loop over `rows`, in order. -/
def rowDiags (rows : List Node) : List String :=
  rows.filterMap (fun r =>
    match processRow r with
    | .error => some "Error processing row"
    | _ => none)

/-- The lines printed by the final report: the translation of the
`if students:` / `else:` branch at the end of `scrape_student_data`
(messages only; the file write is modelled by `writeStep`). -/
def previewLine (i : Nat) (s : Student) : String :=
  toString i ++ ". " ++ s.studentId ++ " | " ++ s.studentName ++ " | " ++
    s.course ++ " | Year " ++ s.year

/-- Console output of the Serializer & Reporter stage. -/
def reportLines (students : List Student) (outPath : String) : List String :=
  if students.isEmpty then ["No student data found in the HTML file"]
  else
    ["Successfully scraped " ++ toString students.length ++ " students",
     "Data saved to: " ++ outPath,
     "Preview of extracted data:"]
    ++ ((students.take 5).enum.map (fun p => previewLine (p.1 + 1) p.2))
    ++ (if students.length > 5 then
          ["... and " ++ toString (students.length - 5) ++ " more students"]
        else [])

/-! ## CSV serialization (`csv.DictWriter`, default dialect)

Default dialect: delimiter `,`, quote character `"`, `QUOTE_MINIMAL`
(a field is quoted iff it contains the delimiter, the quote character,
or a character of the line terminator `\r\n`), quotes escaped by
doubling, rows terminated by `\r\n` (the file is opened with
`newline=''`, so the terminator reaches the file untranslated). -/

/-- Characters that force quoting under `QUOTE_MINIMAL`. -/
def needsQuote (c : Char) : Bool :=
  c == ',' || c == '"' || c == '\r' || c == '\n'

/-- Double every quote character (the `doublequote=True` escape). -/
def csvEscape : List Char → List Char
  | [] => []
  | c :: cs => if c = '"' then '"' :: '"' :: csvEscape cs else c :: csvEscape cs

/-- One serialized field under `QUOTE_MINIMAL`. -/
def csvField (s : String) : List Char :=
  if s.data.any needsQuote then '"' :: (csvEscape s.data ++ ['"']) else s.data

/-- One serialized row: fields joined by `,`, terminated by `\r\n`. -/
def csvRowChars : List String → List Char
  | [] => ['\r', '\n']
  | [f] => csvField f ++ ['\r', '\n']
  | f :: fs => csvField f ++ ',' :: csvRowChars fs

/-- The fixed header written by `writer.writeheader()`. -/
def headerFields : List String := ["Student ID", "Student Name", "Course", "Year"]

/-- The four field values of a record, in column order. -/
def studentFields (s : Student) : List String :=
  [s.studentId, s.studentName, s.course, s.year]

/-- The full CSV file contents: header row then one row per record. -/
def csvOutputChars (students : List Student) : List Char :=
  csvRowChars headerFields ++
    (students.map (fun s => csvRowChars (studentFields s))).flatten

/-- The CSV file contents as a string. -/
def csvOutput (students : List Student) : String :=
  String.mk (csvOutputChars students)

/-- Effect of the `if students:` branch on the output file: the file is
created/overwritten (mode `'w'`) with the CSV contents when `students`
is non-empty, and is left untouched (prior contents `prior` preserved,
no file created) when it is empty. -/
def writeStep (students : List Student) (prior : Option String) : Option String :=
  if students.isEmpty then prior else some (csvOutput students)

/-! ## Decoder (`open(..., encoding='windows-1252')` with `latin-1` fallback) -/

/-- The five bytes that the windows-1252 codec leaves undefined; any one
of them makes a strict windows-1252 decode raise `UnicodeDecodeError`. -/
def win1252Undefined (b : Nat) : Bool :=
  b == 0x81 || b == 0x8D || b == 0x8F || b == 0x90 || b == 0x9D

/-- Code points for the windows-1252 page 0x80–0x9F, indexed by
`b - 0x80`.  The five undefined offsets (0x81, 0x8D, 0x8F, 0x90, 0x9D)
are never consulted: `win1252Byte` rejects those bytes first; identity
values are kept in their slots only to keep the list total. -/
def win1252Page80 : List Nat :=
  [0x20AC, 0x81, 0x201A, 0x0192, 0x201E, 0x2026, 0x2020, 0x2021,
   0x02C6, 0x2030, 0x0160, 0x2039, 0x0152, 0x8D, 0x017D, 0x8F,
   0x90, 0x2018, 0x2019, 0x201C, 0x201D, 0x2022, 0x2013, 0x2014,
   0x02DC, 0x2122, 0x0161, 0x203A, 0x0153, 0x9D, 0x017E, 0x0178]

/-- Strict windows-1252 decode of one byte: bytes 0x00–0x7F and
0xA0–0xFF map to the same code point; 0x80–0x9F map through the
windows-1252 table, with the five undefined bytes failing. -/
def win1252Byte (b : Nat) : Option Nat :=
  if win1252Undefined b then none
  else if b < 0x80 ∨ (0xA0 ≤ b ∧ b < 0x100) then some b
  else if b < 0xA0 then some (win1252Page80.getD (b - 0x80) 0)
  else none

/-- Strict windows-1252 decode of a byte sequence: fails (raises
`UnicodeDecodeError`) iff any byte is undecodable. -/
def decodeWin1252 : List Nat → Option (List Nat)
  | [] => some []
  | b :: bs =>
      match win1252Byte b, decodeWin1252 bs with
      | some c, some cs => some (c :: cs)
      | _, _ => none

/-- latin-1 decode: every byte 0x00–0xFF maps to the same code point, so
the decode is total on byte sequences. -/
def decodeLatin1 (bs : List Nat) : List Nat := bs

/-- The `try`/`except UnicodeDecodeError` of the Decoder: windows-1252
first, latin-1 exactly when the first attempt raises a decoding error. -/
def decodeFile (bs : List Nat) : List Nat :=
  match decodeWin1252 bs with
  | some cs => cs
  | none => decodeLatin1 bs

/-- Outcome of opening and decoding the input file.  The file is
modelled as `none` when it is missing/unreadable (both `open` calls
raise `OSError`, which no handler catches) and `some bs` when its bytes
can be read. -/
inductive ReadOutcome where
  | ok (codepoints : List Nat) : ReadOutcome
  | fatal : ReadOutcome
deriving DecidableEq

/-- Reading and decoding the input: a missing/unreadable file is fatal
(the `except` clause only catches `UnicodeDecodeError`, so there is no
retry); a readable file always decodes. -/
def readInput (file : Option (List Nat)) : ReadOutcome :=
  match file with
  | some bs => .ok (decodeFile bs)
  | none => .fatal

/-- The whole pipeline as a function of the input bytes and the prior
contents of the output path.  The structural parser is a parameter: any
parse function from decoded text to a document forest (the parse is a
pure function of the decoded text). -/
def fullRun (parseFn : List Nat → List Node) (bytes : List Nat)
    (prior : Option String) : Option String :=
  writeStep (scrapeStudents (parseFn (decodeFile bytes))) prior

/-! ## Spec-side definitions

These follow the wording of the specification (not the source); they are
compared with the source-derived definitions in the claim theorems. -/

/-- Spec wording for a field: "locate the first nested font-styling
element inside that cell and take its concatenated text content,
trimmed; if no such nested element exists, the field value is an empty
string". -/
def specFieldValue (cells : List Node) (i : Nat) : String :=
  match (elemsUnder (cells.getD i (.text ""))).find? (tagIs "font") with
  | some f => String.mk (trimChars f.textChars)
  | none => ""

/-- The record the spec assigns to an extractable row. -/
def recordOf (row : Node) : Student :=
  ⟨fieldValue row 1, fieldValue row 2, fieldValue row 3, fieldValue row 4⟩

/-- The rows the spec retains: extraction succeeds (at least 5 cells)
and the trimmed Student ID is non-empty. -/
def qualifies (row : Node) : Bool :=
  decide (5 ≤ (rowCells row).length) && fieldValue row 1 != ""

/-- The Row Selector membership predicate exactly as claim C3 words it:
tag `tr`, class attribute *exactly equal* to `"nav"`, and id a full
match of `msg` + digits with *no surrounding characters*. -/
def specRowPredC3 : Node → Bool
  | .elem tag attrs _ =>
      tag == "tr" && (lookupAttr "class" attrs == some "nav") &&
        (match lookupAttr "id" attrs with
         | some v => msgDigits v.data
         | none => false)
  | .text _ => false

/-- Spec-level (propositional) id condition of the amended C3: the id is
`msg` followed by one or more decimal digits, optionally followed by a
single trailing newline. -/
def specIdMatches (w : String) : Prop :=
  ∃ ds : List Char, ds ≠ [] ∧ (∀ c ∈ ds, c.isDigit) ∧
    (w.data = 'm' :: 's' :: 'g' :: ds ∨ w.data = 'm' :: 's' :: 'g' :: (ds ++ ['\n']))

/-- Spec-level row condition of the amended C3: a `tr` element whose
class attribute has `nav` among its whitespace-separated values and
whose id satisfies `specIdMatches`. -/
def specAmendedRow (e : Node) : Prop :=
  ∃ attrs children, e = Node.elem "tr" attrs children ∧
    (∃ v, lookupAttr "class" attrs = some v ∧ "nav".data ∈ classTokens v) ∧
    (∃ w, lookupAttr "id" attrs = some w ∧ specIdMatches w)

/-! ## CSV re-parsing

Modelled from the spec: claim C8 speaks of "re-parsing that output",
but the repository contains no reading code, so the reader is modelled
from the spec's words — standard CSV parsing for the same dialect
(comma delimiter, `"` quoting with doubled quotes inside quoted fields,
`\r\n` row terminator). -/

/-- Scan an unquoted field: everything up to the first `,` or `\r`
(left in the remainder). -/
def parseFieldU : List Char → List Char × List Char
  | [] => ([], [])
  | c :: cs =>
      if c = ',' ∨ c = '\r' then ([], c :: cs)
      else (c :: (parseFieldU cs).1, (parseFieldU cs).2)

/-- Scan a quoted field, the opening quote already consumed: a doubled
quote contributes one quote character, a single quote closes the field. -/
def parseQ : List Char → List Char × List Char
  | [] => ([], [])
  | c :: cs =>
      if c = '"' then
        match cs with
        | [] => ([], [])
        | c2 :: cs2 =>
            if c2 = '"' then ('"' :: (parseQ cs2).1, (parseQ cs2).2)
            else ([], c2 :: cs2)
      else (c :: (parseQ cs).1, (parseQ cs).2)

/-- Scan one field: quoted if it starts with `"`, unquoted otherwise. -/
def parseField1 (cs : List Char) : List Char × List Char :=
  match cs with
  | [] => ([], [])
  | c :: cs' => if c = '"' then parseQ cs' else parseFieldU (c :: cs')

/-- Scan one record: fields separated by `,`, ended by `\r\n` or the end
of input.  `fuel` bounds the number of fields (any value at least the
field count gives the same result). -/
def parseRecord : Nat → List Char → List (List Char) × List Char
  | 0, cs => ([], cs)
  | fuel + 1, cs =>
      match (parseField1 cs).2 with
      | ',' :: rest2 =>
          ((parseField1 cs).1 :: (parseRecord fuel rest2).1,
           (parseRecord fuel rest2).2)
      | '\r' :: '\n' :: rest2 => ([(parseField1 cs).1], rest2)
      | _ => ([(parseField1 cs).1], (parseField1 cs).2)

/-- Scan all records.  `fuel` bounds the number of rows. -/
def parseRows : Nat → List Char → List (List (List Char))
  | 0, _ => []
  | _, [] => []
  | fuel + 1, cs =>
      (parseRecord cs.length cs).1 :: parseRows fuel (parseRecord cs.length cs).2

/-- Re-parse a CSV string into its rows of field values. -/
def csvParseRows (s : String) : List (List String) :=
  (parseRows s.length s.data).map (fun row => row.map String.mk)

/-! ## Concrete documents used as test inputs -/

/-- A cell `<td><font>txt</font></td>`. -/
def mkCell (txt : String) : Node :=
  .elem "td" [] [.elem "font" [] [.text txt]]

/-- A well-formed student row with five cells. -/
def sampleRow : Node :=
  .elem "tr" [("class", "nav"), ("id", "msg1")]
    [mkCell "hdr", mkCell "12345", mkCell "Jane Doe", mkCell "CS101", mkCell "2024"]

/-- The record extracted from `sampleRow`. -/
def sampleStudent : Student := ⟨"12345", "Jane Doe", "CS101", "2024"⟩

/-- A row with only three cells (unusable). -/
def shortRow : Node :=
  .elem "tr" [("class", "nav"), ("id", "msg2")]
    [mkCell "hdr", mkCell "999", mkCell "X Y"]

/-- A five-cell row whose Student ID cell trims to the empty string. -/
def blankIdRow : Node :=
  .elem "tr" [("class", "nav"), ("id", "msg3")]
    [mkCell "hdr", mkCell "   ", mkCell "No One", mkCell "CS1", mkCell "2020"]

/-- C3 counterexample, part 1: a multi-class row — BeautifulSoup's
`class_='nav'` filter matches any one of the whitespace-separated class
names, not only a class attribute exactly equal to `"nav"`. -/
def c3Row1 : Node := .elem "tr" [("class", "nav active"), ("id", "msg7")] []

/-- C3 counterexample, part 2: an id with a trailing newline — Python's
`$` also matches just before a final newline, so `search(r'^msg\d+$')`
accepts `"msg8\n"`. -/
def c3Row2 : Node := .elem "tr" [("class", "nav"), ("id", "msg8\n")] []

/-- Document holding the two C3 counterexample rows. -/
def c3Doc : List Node := [c3Row1, c3Row2]

/-! ## Helper lemmas -/

/-- The first element of a filtered list is the first element satisfying
the filter (`find_all(...)[0]` agrees with `find(...)`). -/
theorem head?_filter_eq_find? {α : Type} (p : α → Bool) (l : List α) :
    (l.filter p).head? = l.find? p := by
  induction l with
  | nil => rfl
  | cons a l ih =>
    by_cases h : p a <;> simp [List.filter_cons, List.find?_cons, h, ih]

/-- The per-row outcome, expressed through the spec-side predicates. -/
theorem okResult_processRow (r : Node) :
    okResult (processRow r) = if qualifies r then some (recordOf r) else none := by
  simp only [processRow, qualifies, recordOf]
  by_cases h : (rowCells r).length < 5
  · have h5 : ¬ 5 ≤ (rowCells r).length := by omega
    simp [h, h5, okResult]
  · have h5 : 5 ≤ (rowCells r).length := by omega
    by_cases hid : fieldValue r 1 = ""
    · simp [h, h5, hid, okResult]
    · simp [h, h5, hid, okResult]

/-- The loop retains exactly the qualifying rows' records, in order. -/
theorem rowsPipeline_eq_filter_map (rows : List Node) :
    rowsPipeline rows = (rows.filter qualifies).map recordOf := by
  induction rows with
  | nil => rfl
  | cons r rs ih =>
    simp only [rowsPipeline, List.filterMap_cons, okResult_processRow,
      List.filter_cons] at ih ⊢
    by_cases h : qualifies r
    · simp only [h, if_pos, List.map_cons, List.cons.injEq, true_and]
      exact ih
    · simp only [h, if_neg, Bool.false_eq_true, if_false]
      exact ih

/-- A row with at least five cells never reaches the `except` branch. -/
theorem processRow_ne_error (r : Node) (h : 5 ≤ (rowCells r).length) :
    processRow r ≠ RowResult.error := by
  have h' : ¬ (rowCells r).length < 5 := by omega
  simp only [processRow, h', if_false]
  split <;> simp

/-- A row with fewer than five cells always reaches the `except` branch. -/
theorem processRow_error_of_short (r : Node) (h : (rowCells r).length < 5) :
    processRow r = RowResult.error := by
  simp [processRow, h]

/-- Rows that never hit the `except` branch print no diagnostics. -/
theorem rowDiags_eq_nil :
    ∀ rows : List Node, (∀ r ∈ rows, processRow r ≠ RowResult.error) →
      rowDiags rows = []
  | [], _ => rfl
  | r :: rs, h => by
    have h1 := h r (List.mem_cons_self r rs)
    have h2 := rowDiags_eq_nil rs (fun x hx => h x (List.mem_cons_of_mem _ hx))
    simp only [rowDiags, List.filterMap_cons] at h2 ⊢
    cases hp : processRow r with
    | ok s => simpa using h2
    | filtered => simpa using h2
    | error => exact absurd hp h1

/-! ## Claim theorems -/

/-- C1: for every row whose field extraction succeeds (at least 5
cells), a Student Record is appended to the collection iff the trimmed
Student ID field is non-empty; a row whose trimmed Student ID is empty
produces no record. -/
theorem c1_retained_iff_id_nonempty (row : Node) (h : 5 ≤ (rowCells row).length) :
    ((∃ s, okResult (processRow row) = some s) ↔ fieldValue row 1 ≠ "") ∧
    rowsPipeline [row] = (if fieldValue row 1 ≠ "" then [recordOf row] else []) ∧
    (fieldValue row 1 = "" → processRow row = RowResult.filtered) := by
  have h' : ¬ (rowCells row).length < 5 := by omega
  by_cases hid : fieldValue row 1 = "" <;>
    simp [processRow, h', hid, okResult, rowsPipeline, recordOf]

/-- Witness for C1: the sample five-cell row has at least 5 cells and
its non-empty Student ID `"12345"` makes its record retained. -/
theorem c1_witness :
    5 ≤ (rowCells sampleRow).length ∧
    rowsPipeline [sampleRow] = [recordOf sampleRow] := by
  have h : 5 ≤ (rowCells sampleRow).length := by decide
  have h2 := (c1_retained_iff_id_nonempty sampleRow h).2.1
  refine ⟨h, ?_⟩
  rw [h2]
  decide

/-- C2: each qualifying row (extraction succeeds, trimmed Student ID
non-empty) contributes exactly one record, and the Output Table lists
those records in document order. -/
theorem c2_one_record_per_row_in_order (doc : List Node) :
    scrapeStudents doc = ((studentRows doc).filter qualifies).map recordOf :=
  rowsPipeline_eq_filter_map (studentRows doc)

/-- C4: a row with fewer than five cells is an unusable row: it reaches
the `except` branch, yields no record, emits one diagnostic, and the
remaining rows are still processed (no abort, nothing escapes the
per-row handler). -/
theorem c4_short_row_skipped (pre post : List Node) (short : Node)
    (h : (rowCells short).length < 5) :
    processRow short = RowResult.error ∧
    okResult (processRow short) = none ∧
    rowsPipeline (pre ++ short :: post) = rowsPipeline pre ++ rowsPipeline post ∧
    rowDiags (pre ++ short :: post) =
      rowDiags pre ++ "Error processing row" :: rowDiags post := by
  have hp : processRow short = RowResult.error := processRow_error_of_short short h
  refine ⟨hp, by rw [hp]; rfl, ?_, ?_⟩
  · simp [rowsPipeline, List.filterMap_append, List.filterMap_cons, hp, okResult]
  · simp [rowDiags, List.filterMap_append, List.filterMap_cons, hp]

/-- Witness for C4: the three-cell row is skipped with one diagnostic
while contributing no record. -/
theorem c4_witness :
    (rowCells shortRow).length < 5 ∧
    rowDiags [shortRow] = ["Error processing row"] ∧
    rowsPipeline [shortRow] = [] := by
  have h : (rowCells shortRow).length < 5 := by decide
  have h4 := c4_short_row_skipped [] [] shortRow h
  exact ⟨h, by simpa using h4.2.2.2, by simpa using h4.2.2.1⟩

/-- C6: an empty Output Table — in particular whenever the Row Selector
matches nothing — leaves the output file untouched (prior contents
preserved, nothing created) and prints the single no-data diagnostic. -/
theorem c6_empty_result_no_output (doc : List Node) (prior : Option String)
    (path : String) :
    (studentRows doc = [] → scrapeStudents doc = []) ∧
    (scrapeStudents doc = [] →
      writeStep (scrapeStudents doc) prior = prior ∧
      reportLines (scrapeStudents doc) path =
        ["No student data found in the HTML file"]) := by
  constructor
  · intro h
    simp [scrapeStudents, h, rowsPipeline]
  · intro h
    rw [h]
    exact ⟨rfl, rfl⟩

/-- Witness for C6: the empty document selects no rows, preserves the
prior output contents and prints exactly the no-data line. -/
theorem c6_witness :
    studentRows [] = ([] : List Node) ∧
    writeStep (scrapeStudents []) (some "old") = some "old" ∧
    reportLines (scrapeStudents []) "students_data.csv" =
      ["No student data found in the HTML file"] := by
  have h := c6_empty_result_no_output [] (some "old") "students_data.csv"
  have h1 : scrapeStudents ([] : List Node) = [] := h.1 rfl
  exact ⟨rfl, (h.2 h1).1, (h.2 h1).2⟩

/-- C9: the output file contents are a deterministic function of the
input bytes (for any parse function): a second run over the same input
reproduces the same file, and a non-empty result does not depend on the
output path's prior contents. -/
theorem c9_pipeline_idempotent (parseFn : List Nat → List Node)
    (bytes : List Nat) (p1 p2 : Option String) :
    fullRun parseFn bytes (fullRun parseFn bytes p1) = fullRun parseFn bytes p1 ∧
    (scrapeStudents (parseFn (decodeFile bytes)) ≠ [] →
      fullRun parseFn bytes p1 = fullRun parseFn bytes p2) := by
  unfold fullRun writeStep
  by_cases h : (scrapeStudents (parseFn (decodeFile bytes))).isEmpty
  · simp only [h, if_pos, if_true]
    rw [List.isEmpty_iff] at h
    exact ⟨trivial, fun hne => absurd h hne⟩
  · simp [h]

/-- Witness for C9 at a one-row document. -/
theorem c9_witness :
    scrapeStudents ((fun _ => [sampleRow]) (decodeFile [])) ≠ [] ∧
    fullRun (fun _ => [sampleRow]) [] none =
      fullRun (fun _ => [sampleRow]) [] (some "x") ∧
    fullRun (fun _ => [sampleRow]) [] (fullRun (fun _ => [sampleRow]) [] none) =
      fullRun (fun _ => [sampleRow]) [] none := by
  have hne : scrapeStudents ((fun _ => [sampleRow]) (decodeFile ([] : List Nat))) ≠ [] := by
    decide
  have h := c9_pipeline_idempotent (fun _ => [sampleRow]) [] none (some "x")
  exact ⟨hne, h.2 hne, h.1⟩

/-- C10: for rows with at least five cells the per-row handler is
unreachable: no row errors and no diagnostic is emitted. -/
theorem c10_no_exception_with_five_cells (rows : List Node)
    (h : ∀ r ∈ rows, 5 ≤ (rowCells r).length) :
    (∀ r ∈ rows, processRow r ≠ RowResult.error) ∧ rowDiags rows = [] := by
  have h1 : ∀ r ∈ rows, processRow r ≠ RowResult.error :=
    fun r hr => processRow_ne_error r (h r hr)
  exact ⟨h1, rowDiags_eq_nil rows h1⟩

/-- Witness for C10 at a document of one five-cell row. -/
theorem c10_witness :
    (∀ r ∈ [sampleRow], 5 ≤ (rowCells r).length) ∧ rowDiags [sampleRow] = [] := by
  have h : ∀ r ∈ [sampleRow], 5 ≤ (rowCells r).length := by decide
  exact ⟨h, (c10_no_exception_with_five_cells [sampleRow] h).2⟩

/-! ## C7: the decoder -/

/-- An undefined byte cannot be decoded by windows-1252. -/
theorem win1252Byte_eq_none (b : Nat) (h : win1252Undefined b = true) :
    win1252Byte b = none := by
  unfold win1252Byte
  rw [h]
  rfl

/-- Every in-range byte outside the five undefined ones decodes. -/
theorem win1252Byte_isSome (b : Nat) (h1 : b < 256) (h2 : win1252Undefined b = false) :
    (win1252Byte b).isSome = true := by
  unfold win1252Byte
  rw [h2]
  simp only [Bool.false_eq_true, if_false]
  split_ifs with hA hB
  · rfl
  · rfl
  · exfalso
    omega

/-- Strict windows-1252 decoding fails exactly on sequences holding an
undefined byte (for in-range byte sequences). -/
theorem decodeWin1252_eq_none_iff (bs : List Nat) (hb : ∀ b ∈ bs, b < 256) :
    decodeWin1252 bs = none ↔ ∃ b ∈ bs, win1252Undefined b = true := by
  induction bs with
  | nil => simp [decodeWin1252]
  | cons b bs ih =>
    have hb' : ∀ x ∈ bs, x < 256 := fun x hx => hb x (List.mem_cons_of_mem _ hx)
    have ihb := ih hb'
    by_cases h : win1252Undefined b = true
    · have hn := win1252Byte_eq_none b h
      simp only [decodeWin1252, hn]
      simp [h]
    · have hs := win1252Byte_isSome b (hb b (List.mem_cons_self b bs))
        (by simpa using h)
      obtain ⟨c, hc⟩ := Option.isSome_iff_exists.mp hs
      simp only [decodeWin1252, hc]
      rcases hrec : decodeWin1252 bs with _ | cs
      · simp only [List.mem_cons]
        constructor
        · intro _
          obtain ⟨x, hx, hxu⟩ := ihb.mp hrec
          exact ⟨x, Or.inr hx, hxu⟩
        · intro _
          trivial
      · simp only [List.mem_cons]
        constructor
        · intro habs
          exact absurd habs (by simp)
        · rintro ⟨x, rfl | hx', hxu⟩
          · exact absurd hxu (by simp [h])
          · have : decodeWin1252 bs = none := ihb.mpr ⟨x, hx', hxu⟩
            rw [this] at hrec
            exact absurd hrec (by simp)

/-- C7: the decoder attempts windows-1252 first and uses its result
whenever it succeeds; it falls back to latin-1 exactly when windows-1252
raises a decoding error, which happens iff an undefined byte occurs;
latin-1 itself decodes any byte sequence; a missing/unreadable input
file is fatal with no retry, while a readable file always yields decoded
text. -/
theorem c7_decoder_fallback (bs : List Nat) (hb : ∀ b ∈ bs, b < 256) :
    (decodeWin1252 bs = none ↔ ∃ b ∈ bs, win1252Undefined b = true) ∧
    (∀ cs, decodeWin1252 bs = some cs → decodeFile bs = cs) ∧
    (decodeWin1252 bs = none → decodeFile bs = decodeLatin1 bs) ∧
    readInput none = ReadOutcome.fatal ∧
    readInput (some bs) = ReadOutcome.ok (decodeFile bs) := by
  refine ⟨decodeWin1252_eq_none_iff bs hb, ?_, ?_, rfl, rfl⟩
  · intro cs h
    simp [decodeFile, h]
  · intro h
    simp [decodeFile, h]

/-- Witness for C7 on the bytes `[0x41, 0x81]`: 0x81 is undefined in
windows-1252, so the first attempt fails and latin-1 is used. -/
theorem c7_witness :
    (∀ b ∈ [0x41, 0x81], b < 256) ∧
    decodeWin1252 [0x41, 0x81] = none ∧
    decodeFile [0x41, 0x81] = decodeLatin1 [0x41, 0x81] := by
  have hb : ∀ b ∈ [0x41, 0x81], b < 256 := by decide
  have h := c7_decoder_fallback [0x41, 0x81] hb
  have hnone : decodeWin1252 [0x41, 0x81] = none :=
    h.1.mpr ⟨0x81, by decide, by decide⟩
  exact ⟨hb, hnone, h.2.2.1 hnone⟩

/-! ## C5: field extraction -/

/-- `cell.find('font')` (head of the filtered descendants) agrees with
the spec's "first nested font-styling element" (`find?`). -/
theorem fontText_eq_spec (cell : Node) :
    fontText cell =
      (match (elemsUnder cell).find? (tagIs "font") with
       | some f => String.mk (trimChars f.textChars)
       | none => "") := by
  unfold fontText findFont
  rw [head?_filter_eq_find?]

/-- C5: for a row with at least five cells, each field 1–4 equals the
trimmed concatenated text of the first nested font element of that cell,
is the empty string (not an error) when the cell has no such element,
and the produced record carries exactly those field values. -/
theorem c5_field_extraction (row : Node) (h : 5 ≤ (rowCells row).length) :
    (∀ i, i ∈ [1, 2, 3, 4] → fieldValue row i = specFieldValue (rowCells row) i) ∧
    (∀ i, i ∈ [1, 2, 3, 4] →
      (elemsUnder ((rowCells row).getD i (.text ""))).find? (tagIs "font") = none →
      fieldValue row i = "") ∧
    (∀ s, processRow row = RowResult.ok s →
      s = ⟨fieldValue row 1, fieldValue row 2, fieldValue row 3, fieldValue row 4⟩) := by
  refine ⟨?_, ?_, ?_⟩
  · intro i _
    unfold fieldValue specFieldValue
    rw [fontText_eq_spec]
  · intro i _ hnone
    unfold fieldValue
    rw [fontText_eq_spec, hnone]
  · intro s hs
    have h' : ¬ (rowCells row).length < 5 := by omega
    simp only [processRow, h', if_false] at hs
    by_cases hid : fieldValue row 1 = ""
    · simp [hid] at hs
    · simp only [ne_eq, hid, not_false_eq_true, if_true, if_pos] at hs
      exact (RowResult.ok.inj hs).symm

/-- Witness for C5 at the sample five-cell row. -/
theorem c5_witness :
    5 ≤ (rowCells sampleRow).length ∧
    fieldValue sampleRow 1 = specFieldValue (rowCells sampleRow) 1 ∧
    fieldValue sampleRow 2 = specFieldValue (rowCells sampleRow) 2 := by
  have h : 5 ≤ (rowCells sampleRow).length := by decide
  exact ⟨h, (c5_field_extraction sampleRow h).1 1 (by decide),
    (c5_field_extraction sampleRow h).1 2 (by decide)⟩

/-! ## C3: the Row Selector -/

/-- `msgDigits` characterized: the string is `msg` followed by a
non-empty run of decimal digits. -/
theorem msgDigits_iff (cs : List Char) :
    msgDigits cs = true ↔
      ∃ ds, ds ≠ [] ∧ (∀ c ∈ ds, c.isDigit = true) ∧
        cs = 'm' :: 's' :: 'g' :: ds := by
  match cs with
  | [] => simp [msgDigits]
  | [c1] => simp [msgDigits]
  | [c1, c2] => simp [msgDigits]
  | c1 :: c2 :: c3 :: rest =>
    simp only [msgDigits, Bool.and_eq_true, beq_iff_eq, Bool.not_eq_true',
      List.isEmpty_eq_false, List.all_eq_true, List.cons.injEq]
    constructor
    · rintro ⟨⟨⟨⟨rfl, rfl⟩, rfl⟩, hne⟩, hall⟩
      exact ⟨rest, hne, hall, rfl, rfl, rfl, rfl⟩
    · rintro ⟨ds, hne, hall, rfl, rfl, rfl, rfl⟩
      exact ⟨⟨⟨⟨rfl, rfl⟩, rfl⟩, hne⟩, hall⟩

/-- `msgIdSearch` characterized: the id is `msg` + digits, optionally
followed by a single trailing newline (Python `$`-before-final-newline
semantics). -/
theorem msgIdSearch_iff (w : String) :
    msgIdSearch w = true ↔ specIdMatches w := by
  unfold msgIdSearch specIdMatches
  constructor
  · intro h
    rw [Bool.or_eq_true] at h
    rcases h with h1 | h2
    · obtain ⟨ds, hds, hall, heq⟩ := (msgDigits_iff _).mp h1
      exact ⟨ds, hds, hall, Or.inl heq⟩
    · rw [Bool.and_eq_true] at h2
      obtain ⟨hlast, hdrop⟩ := h2
      rw [beq_iff_eq] at hlast
      obtain ⟨ds, hds, hall, heq⟩ := (msgDigits_iff _).mp hdrop
      refine ⟨ds, hds, hall, Or.inr ?_⟩
      have hfull := List.dropLast_append_getLast? '\n' (Option.mem_def.mpr hlast)
      rw [← hfull, heq]
      simp
  · rintro ⟨ds, hds, hall, heq | heq⟩
    · rw [Bool.or_eq_true]
      exact Or.inl ((msgDigits_iff _).mpr ⟨ds, hds, hall, heq⟩)
    · have hsplit : 'm' :: 's' :: 'g' :: (ds ++ ['\n']) =
          ('m' :: 's' :: 'g' :: ds) ++ ['\n'] := by simp
      rw [Bool.or_eq_true, Bool.and_eq_true]
      refine Or.inr ⟨?_, ?_⟩
      · rw [beq_iff_eq, heq, hsplit]
        exact List.getLast?_concat _
      · rw [heq, hsplit, List.dropLast_concat]
        exact (msgDigits_iff _).mpr ⟨ds, hds, hall, rfl⟩

/-- `classMatchesNav` characterized: some `class` attribute is present
and `nav` is among its whitespace-separated values. -/
theorem classMatchesNav_iff (attrs : List (String × String)) :
    classMatchesNav attrs = true ↔
      ∃ v, lookupAttr "class" attrs = some v ∧ "nav".data ∈ classTokens v := by
  unfold classMatchesNav
  cases h : lookupAttr "class" attrs with
  | none => simp [h]
  | some v => simp [h]

/-- The source row filter agrees with the amended spec-level condition. -/
theorem isStudentRow_iff (e : Node) :
    isStudentRow e = true ↔ specAmendedRow e := by
  cases e with
  | text s => simp [isStudentRow, specAmendedRow]
  | elem tag attrs children =>
    simp only [isStudentRow, Bool.and_eq_true, beq_iff_eq]
    constructor
    · rintro ⟨⟨rfl, hclass⟩, hid⟩
      obtain ⟨v, hv, hmem⟩ := (classMatchesNav_iff attrs).mp hclass
      cases hlk : lookupAttr "id" attrs with
      | none => simp [hlk] at hid
      | some w =>
        simp only [hlk] at hid
        exact ⟨attrs, children, rfl, ⟨v, hv, hmem⟩,
          ⟨w, hlk, (msgIdSearch_iff w).mp hid⟩⟩
    · rintro ⟨attrs', children', heq, ⟨v, hv, hmem⟩, ⟨w, hw, hid⟩⟩
      obtain ⟨rfl, rfl, rfl⟩ : tag = "tr" ∧ attrs = attrs' ∧ children = children' := by
        injection heq with h1 h2 h3
        exact ⟨h1, h2, h3⟩
      refine ⟨⟨rfl, (classMatchesNav_iff _).mpr ⟨v, hv, hmem⟩⟩, ?_⟩
      rw [hw]
      exact (msgIdSearch_iff w).mpr hid

/-- C3 counterexample: both rows of `c3Doc` are selected by the code —
one whose class attribute is `"nav active"` (not exactly `"nav"`), one
whose id `"msg8\n"` carries a trailing newline (not a surrounding-free
full match) — so the claim's membership condition is violated. -/
theorem c3_counterexample :
    studentRows c3Doc = [c3Row1, c3Row2] ∧
    specRowPredC3 c3Row1 = false ∧ specRowPredC3 c3Row2 = false :=
  ⟨rfl, rfl, rfl⟩

/-- C3 (amended): the Row Selector returns, in document order, exactly
those elements whose tag is `tr`, whose class attribute contains `nav`
among its whitespace-separated values, and whose id is `msg` followed by
one or more decimal digits, optionally followed by a single trailing
newline; zero matches yields an empty (non-error) sequence. -/
theorem c3_amended_selector (doc : List Node) :
    List.Sublist (studentRows doc) (elemsInDoc doc) ∧
    (∀ e, e ∈ studentRows doc ↔ e ∈ elemsInDoc doc ∧ specAmendedRow e) ∧
    studentRows doc = (elemsInDoc doc).filter isStudentRow := by
  refine ⟨List.filter_sublist _, ?_, rfl⟩
  intro e
  rw [studentRows, List.mem_filter, isStudentRow_iff]

/-! ## C8: CSV round-trip -/

/-- Unquoted scan step: an ordinary character is consumed into the field. -/
theorem parseFieldU_step (c : Char) (cs : List Char) (h : ¬(c = ',' ∨ c = '\r')) :
    parseFieldU (c :: cs) = (c :: (parseFieldU cs).1, (parseFieldU cs).2) := by
  simp [parseFieldU, h]

/-- Quoted scan step: a doubled quote is consumed as one quote. -/
theorem parseQ_qq (cs : List Char) :
    parseQ ('"' :: '"' :: cs) = ('"' :: (parseQ cs).1, (parseQ cs).2) := by
  rw [parseQ.eq_def]
  simp

/-- Quoted scan step: a non-quote character is consumed into the field. -/
theorem parseQ_other (c : Char) (cs : List Char) (h : c ≠ '"') :
    parseQ (c :: cs) = (c :: (parseQ cs).1, (parseQ cs).2) := by
  rw [parseQ.eq_def]
  simp [h]

/-- Quoted scan step: a single quote not followed by a quote closes the
field. -/
theorem parseQ_close (rest : List Char) (h : ∀ r', rest ≠ '"' :: r') :
    parseQ ('"' :: rest) = ([], rest) := by
  cases rest with
  | nil => rfl
  | cons r rs =>
    have hrr : r ≠ '"' := fun hh => h rs (by rw [hh])
    simp [parseQ, hrr]

/-- Scanning an unquoted serialized field consumes exactly the field. -/
theorem parseFieldU_exact (f : List Char) (rest : List Char)
    (hf : ∀ c ∈ f, needsQuote c = false)
    (hr : rest = [] ∨ (∃ r', rest = ',' :: r') ∨ (∃ r', rest = '\r' :: r')) :
    parseFieldU (f ++ rest) = (f, rest) := by
  induction f with
  | nil =>
    rcases hr with rfl | ⟨r', rfl⟩ | ⟨r', rfl⟩
    · rfl
    · simp [parseFieldU]
    · simp [parseFieldU]
  | cons c f ih =>
    have hc := hf c (List.mem_cons_self c f)
    have h1 : ¬(c = ',' ∨ c = '\r') := by
      simp only [needsQuote, Bool.or_eq_false_iff, beq_eq_false_iff_ne, ne_eq] at hc
      tauto
    rw [List.cons_append, parseFieldU_step c _ h1,
      ih (fun x hx => hf x (List.mem_cons_of_mem _ hx))]

/-- Scanning a quoted serialized field consumes exactly the escaped
field body and its closing quote. -/
theorem parseQ_exact (f : List Char) (rest : List Char)
    (hr : ∀ r', rest ≠ '"' :: r') :
    parseQ (csvEscape f ++ '"' :: rest) = (f, rest) := by
  induction f with
  | nil => simpa [csvEscape] using parseQ_close rest hr
  | cons c f ih =>
    by_cases hc : c = '"'
    · subst hc
      have hsh : csvEscape ('"' :: f) ++ '"' :: rest =
          '"' :: '"' :: (csvEscape f ++ '"' :: rest) := by
        simp [csvEscape]
      rw [hsh, parseQ_qq, ih]
    · have hsh : csvEscape (c :: f) ++ '"' :: rest =
          c :: (csvEscape f ++ '"' :: rest) := by
        simp [csvEscape, hc]
      rw [hsh, parseQ_other c _ hc, ih]

/-- Scanning an unquoted field from the start of a record. -/
theorem parseField1_unquoted (l : List Char) (rest : List Char)
    (hf : ∀ c ∈ l, needsQuote c = false)
    (hr : rest = [] ∨ (∃ r', rest = ',' :: r') ∨ (∃ r', rest = '\r' :: r')) :
    parseField1 (l ++ rest) = (l, rest) := by
  cases l with
  | nil =>
    rcases hr with rfl | ⟨r', rfl⟩ | ⟨r', rfl⟩ <;> simp [parseField1, parseFieldU]
  | cons c cs' =>
    have hc := hf c (List.mem_cons_self c cs')
    have hcq : c ≠ '"' := by
      simp only [needsQuote, Bool.or_eq_false_iff, beq_eq_false_iff_ne, ne_eq] at hc
      tauto
    simp only [List.cons_append, parseField1, hcq, if_false]
    rw [← List.cons_append]
    exact parseFieldU_exact (c :: cs') rest hf hr

/-- Scanning one serialized field (quoted or not) consumes exactly the
field and recovers the original value. -/
theorem parseField1_exact (s : String) (rest : List Char)
    (hr : rest = [] ∨ (∃ r', rest = ',' :: r') ∨ (∃ r', rest = '\r' :: r')) :
    parseField1 (csvField s ++ rest) = (s.data, rest) := by
  unfold csvField
  by_cases hq : s.data.any needsQuote
  · rw [if_pos hq]
    have hr' : ∀ r', rest ≠ '"' :: r' := by
      rcases hr with rfl | ⟨r', rfl⟩ | ⟨r', rfl⟩ <;> intro x hx <;> simp_all
    have hsh : ('"' :: (csvEscape s.data ++ ['"'])) ++ rest =
        '"' :: (csvEscape s.data ++ '"' :: rest) := by
      simp
    rw [hsh]
    simp only [parseField1, if_pos rfl]
    exact parseQ_exact s.data rest hr'
  · rw [if_neg hq]
    have hf : ∀ c ∈ s.data, needsQuote c = false := by
      simp only [List.any_eq_true, not_exists, not_and, Bool.not_eq_true] at hq
      exact fun c hc => hq c hc
    exact parseField1_unquoted s.data rest hf hr

/-- Scanning one serialized record consumes exactly the record and
recovers its fields, leaving the remainder untouched. -/
theorem parseRecord_exact (fs : List String) (rest : List Char) (fuel : Nat)
    (hne : fs ≠ []) (hfuel : fs.length ≤ fuel) :
    parseRecord fuel (csvRowChars fs ++ rest) = (fs.map String.data, rest) := by
  induction fs generalizing fuel rest with
  | nil => exact absurd rfl hne
  | cons f fs ih =>
    obtain ⟨k, rfl⟩ : ∃ k, fuel = k + 1 :=
      ⟨fuel - 1, by simp only [List.length_cons] at hfuel; omega⟩
    cases fs with
    | nil =>
      have harr : csvRowChars [f] ++ rest = csvField f ++ ('\r' :: '\n' :: rest) := by
        simp [csvRowChars]
      have hp : parseField1 (csvField f ++ ('\r' :: '\n' :: rest)) =
          (f.data, '\r' :: '\n' :: rest) :=
        parseField1_exact f _ (Or.inr (Or.inr ⟨'\n' :: rest, rfl⟩))
      rw [harr]
      simp only [parseRecord, hp]
      simp
    | cons f2 fs2 =>
      have harr : csvRowChars (f :: f2 :: fs2) ++ rest =
          csvField f ++ (',' :: (csvRowChars (f2 :: fs2) ++ rest)) := by
        simp [csvRowChars]
      have hp : parseField1 (csvField f ++ (',' :: (csvRowChars (f2 :: fs2) ++ rest))) =
          (f.data, ',' :: (csvRowChars (f2 :: fs2) ++ rest)) :=
        parseField1_exact f _ (Or.inr (Or.inl ⟨_, rfl⟩))
      rw [harr]
      simp only [parseRecord, hp]
      rw [ih _ _ (by simp) (by simp only [List.length_cons] at hfuel ⊢; omega)]
      simp

/-- A serialized row is never empty (it ends with the terminator). -/
theorem csvRowChars_pos : ∀ fs : List String, 0 < (csvRowChars fs).length
  | [] => by simp [csvRowChars]
  | [f] => by simp [csvRowChars]
  | f :: f2 :: fs2 => by
    have ih := csvRowChars_pos (f2 :: fs2)
    simp only [csvRowChars, List.length_append, List.length_cons]
    omega

/-- A serialized row is at least as long as its field count. -/
theorem csvRowChars_length_ge : ∀ fs : List String, fs.length ≤ (csvRowChars fs).length
  | [] => by simp [csvRowChars]
  | [f] => by simp [csvRowChars]
  | f :: f2 :: fs2 => by
    have ih := csvRowChars_length_ge (f2 :: fs2)
    simp only [csvRowChars, List.length_append, List.length_cons] at ih ⊢
    omega

/-- The serialized file is at least as long as its row count. -/
theorem flatten_rows_length (rows : List (List String)) :
    rows.length ≤ ((rows.map csvRowChars).flatten).length := by
  induction rows with
  | nil => simp
  | cons r rows ih =>
    have h1 := csvRowChars_pos r
    simp only [List.map_cons, List.flatten_cons, List.length_append, List.length_cons]
    omega

/-- Scanning a whole serialized table recovers every row. -/
theorem parseRows_exact (rows : List (List String)) (fuel : Nat)
    (hne : ∀ r ∈ rows, r ≠ [])
    (hfuel : rows.length ≤ fuel) :
    parseRows fuel ((rows.map csvRowChars).flatten) =
      rows.map (fun r => r.map String.data) := by
  induction rows generalizing fuel with
  | nil => cases fuel <;> rfl
  | cons r rows ih =>
    obtain ⟨k, rfl⟩ : ∃ k, fuel = k + 1 :=
      ⟨fuel - 1, by simp only [List.length_cons] at hfuel; omega⟩
    have hflat : ((r :: rows).map csvRowChars).flatten =
        csvRowChars r ++ (rows.map csvRowChars).flatten := by simp
    obtain ⟨c, cs', heq⟩ : ∃ c cs',
        csvRowChars r ++ (rows.map csvRowChars).flatten = c :: cs' := by
      have hpos := csvRowChars_pos r
      cases hrc : csvRowChars r with
      | nil => rw [hrc] at hpos; simp at hpos
      | cons c cs0 => exact ⟨c, cs0 ++ (rows.map csvRowChars).flatten, by simp [hrc]⟩
    have hlen : r.length ≤ (csvRowChars r ++ (rows.map csvRowChars).flatten).length := by
      have h1 := csvRowChars_length_ge r
      simp only [List.length_append]
      omega
    have hrec := parseRecord_exact r ((rows.map csvRowChars).flatten)
      ((csvRowChars r ++ (rows.map csvRowChars).flatten).length)
      (hne r (List.mem_cons_self r rows)) hlen
    rw [hflat, heq]
    simp only [parseRows]
    rw [← heq, hrec]
    simp only [List.map_cons, List.cons.injEq, true_and]
    exact ih k (fun x hx => hne x (List.mem_cons_of_mem _ hx))
      (by simp only [List.length_cons] at hfuel; omega)

/-- Re-serializing and re-parsing is the identity on each row of
strings. -/
theorem map_mk_map_data (l : List String) :
    (l.map String.data).map String.mk = l := by
  induction l with
  | nil => rfl
  | cons a l ihl =>
    simp only [List.map_cons, ihl]

/-- C8: re-parsing the serialized output of any Output Table yields
exactly the fixed header row plus one data row per retained record, the
four field values of each data row equal to the original record's
values — including fields holding commas, quotation marks or line
breaks. -/
theorem c8_roundtrip (students : List Student) :
    csvParseRows (csvOutput students) =
      headerFields :: students.map studentFields ∧
    (csvParseRows (csvOutput students)).length = students.length + 1 := by
  have hflat : csvOutputChars students =
      (((headerFields :: students.map studentFields).map csvRowChars)).flatten := by
    simp only [List.map_cons, List.flatten_cons, List.map_map, csvOutputChars]
    rfl
  have hne : ∀ r ∈ headerFields :: students.map studentFields, r ≠ [] := by
    intro r hr
    rcases List.mem_cons.mp hr with rfl | hr'
    · simp [headerFields]
    · obtain ⟨s, _, rfl⟩ := List.mem_map.mp hr'
      simp [studentFields]
  have hfuel : (headerFields :: students.map studentFields).length ≤
      (((headerFields :: students.map studentFields).map csvRowChars).flatten).length :=
    flatten_rows_length _
  have hmain : csvParseRows (csvOutput students) =
      headerFields :: students.map studentFields := by
    show (parseRows (csvOutputChars students).length (csvOutputChars students)).map
        (fun row => row.map String.mk) = _
    rw [hflat, parseRows_exact _ _ hne hfuel, List.map_map]
    have hid : ((fun row => List.map String.mk row) ∘ fun r => List.map String.data r) =
        (id : List String → List String) := by
      funext r
      simp only [Function.comp_apply, map_mk_map_data, id_eq]
    rw [hid, List.map_id]
  exact ⟨hmain, by rw [hmain]; simp⟩
